import Mathlib

/-!
Shallow embedding of the `commit` package (remote commit construction and
local-sync reconciliation engine) and proofs of its specified properties.

The embedding translates the Go source files into executable Lean
definitions: bytes are `Nat` values below 256, strings are Lean `String`s,
every fallible operation returns an `Except`/`Outcome`, external
collaborators (the remote object-store API, the local VCS subprocess
runner, the file system) are explicit environment records, and every
run additionally produces the ordered trace of remote-API calls and
local VCS invocations it issued.
-/

namespace CommitCli

/-! ### String helpers modelling the Go standard-library calls used by the source -/

/-- Model of `strings.Split(s, sep)` for a one-character separator:
splitting the empty string yields `[""]`, as in Go. -/
def splitOnCharAux (sep : Char) : List Char → List Char → List (List Char)
  | [], acc => [acc.reverse]
  | c :: cs, acc =>
    if c = sep then acc.reverse :: splitOnCharAux sep cs []
    else splitOnCharAux sep cs (c :: acc)

/-- `strings.Split(s, "\n")`. -/
def splitLines (s : String) : List String :=
  (splitOnCharAux '\n' s.toList []).map String.mk

/-- ASCII whitespace, the subset of Unicode space relevant to VCS output. -/
def isSpaceChar (c : Char) : Bool :=
  c = ' ' || c = '\t' || c = '\n' || c = '\r'

/-- Model of `strings.TrimSpace`. -/
def trimSpace (s : String) : String :=
  String.mk (((s.toList.dropWhile isSpaceChar).reverse.dropWhile isSpaceChar).reverse)

/-- Model of `strings.Replace(s, pat, rep, 1)`: replace the first occurrence only. -/
def replaceFirstAux (pat rep : List Char) : List Char → List Char
  | [] => []
  | c :: cs =>
    if pat.isPrefixOf (c :: cs) then rep ++ (c :: cs).drop pat.length
    else c :: replaceFirstAux pat rep cs

/-- `strings.Replace(s, pat, rep, 1)` on strings. -/
def replaceFirst (s pat rep : String) : String :=
  String.mk (replaceFirstAux pat.toList rep.toList s.toList)

/-- Drop every leading occurrence of `ch`. -/
def trimCharLeading (ch : Char) : List Char → List Char
  | [] => []
  | c :: cs => if c = ch then trimCharLeading ch cs else c :: cs

/-- Model of `strings.Trim(s, cutset)` for the one-character cutset used by the
source (the single-quote character). -/
def trimChar (ch : Char) (s : String) : String :=
  String.mk ((trimCharLeading ch (trimCharLeading ch s.toList).reverse).reverse)

/-! ### Base64 (RFC 4648 standard alphabet), as used via `base64.StdEncoding` -/

/-- Byte stream to six-bit groups, processing three bytes at a time exactly as
the standard encoding does (partial final group for a remainder of 1 or 2 bytes). -/
def toSextets : List Nat → List Nat
  | [] => []
  | [a] => [a / 4, a % 4 * 16]
  | [a, b] => [a / 4, a % 4 * 16 + b / 16, b % 16 * 4]
  | a :: b :: c :: rest =>
    a / 4 :: (a % 4 * 16 + b / 16) :: (b % 16 * 4 + c / 64) :: c % 64 :: toSextets rest

/-- Six-bit groups back to bytes (inverse of `toSextets` on well-formed input). -/
def sextetsToBytes : List Nat → List Nat
  | [i0, i1] => [i0 * 4 + i1 / 16]
  | [i0, i1, i2] => [i0 * 4 + i1 / 16, i1 % 16 * 16 + i2 / 4]
  | i0 :: i1 :: i2 :: i3 :: rest =>
    (i0 * 4 + i1 / 16) :: (i1 % 16 * 16 + i2 / 4) :: (i2 % 4 * 64 + i3) :: sextetsToBytes rest
  | _ => []

/-- The standard base64 alphabet. -/
def b64Alphabet : List Char :=
  ['A', 'B', 'C', 'D', 'E', 'F', 'G', 'H', 'I', 'J', 'K', 'L', 'M',
   'N', 'O', 'P', 'Q', 'R', 'S', 'T', 'U', 'V', 'W', 'X', 'Y', 'Z',
   'a', 'b', 'c', 'd', 'e', 'f', 'g', 'h', 'i', 'j', 'k', 'l', 'm',
   'n', 'o', 'p', 'q', 'r', 's', 't', 'u', 'v', 'w', 'x', 'y', 'z',
   '0', '1', '2', '3', '4', '5', '6', '7', '8', '9', '+', '/']

/-- Alphabet character for a six-bit group. -/
def b64Char (n : Nat) : Char := b64Alphabet.getD n '='

/-- Index of a character in the base64 alphabet. -/
def b64Index (c : Char) : Nat := b64Alphabet.indexOf c

/-- Model of `base64.StdEncoding.EncodeToString` over a byte list. -/
def base64Encode (bs : List Nat) : List Char :=
  (toSextets bs).map b64Char ++ List.replicate ((3 - bs.length % 3) % 3) '='

/-- The matching decoder: strip padding, map characters back to six-bit groups,
reassemble bytes. -/
def base64Decode (cs : List Char) : List Nat :=
  sextetsToBytes ((cs.filter (fun c => c ≠ '=')).map b64Index)

theorem sextetsToBytes_toSextets (bs : List Nat) (h : ∀ b ∈ bs, b < 256) :
    sextetsToBytes (toSextets bs) = bs := by
  induction bs using toSextets.induct with
  | case1 => rfl
  | case2 a =>
    have ha : a < 256 := h a (by simp)
    simp only [toSextets, sextetsToBytes, List.cons.injEq, and_true]
    omega
  | case3 a b =>
    have ha : a < 256 := h a (by simp)
    have hb : b < 256 := h b (by simp)
    simp only [toSextets, sextetsToBytes, List.cons.injEq, and_true]
    omega
  | case4 a b c rest ih =>
    have ha : a < 256 := h a (by simp)
    have hb : b < 256 := h b (by simp)
    have hc : c < 256 := h c (by simp)
    have hrest : ∀ x ∈ rest, x < 256 := fun x hx => h x (by simp [hx])
    simp only [toSextets, sextetsToBytes, List.cons.injEq]
    refine ⟨by omega, by omega, by omega, ih hrest⟩

theorem toSextets_lt (bs : List Nat) (h : ∀ b ∈ bs, b < 256) :
    ∀ s ∈ toSextets bs, s < 64 := by
  induction bs using toSextets.induct with
  | case1 => intro s hs; simp [toSextets] at hs
  | case2 a =>
    have ha : a < 256 := h a (by simp)
    intro s hs
    simp only [toSextets, List.mem_cons, List.not_mem_nil, or_false] at hs
    rcases hs with rfl | rfl <;> omega
  | case3 a b =>
    have ha : a < 256 := h a (by simp)
    have hb : b < 256 := h b (by simp)
    intro s hs
    simp only [toSextets, List.mem_cons, List.not_mem_nil, or_false] at hs
    rcases hs with rfl | rfl | rfl <;> omega
  | case4 a b c rest ih =>
    have ha : a < 256 := h a (by simp)
    have hb : b < 256 := h b (by simp)
    have hc : c < 256 := h c (by simp)
    have hrest : ∀ x ∈ rest, x < 256 := fun x hx => h x (by simp [hx])
    intro s hs
    simp only [toSextets, List.mem_cons] at hs
    rcases hs with rfl | rfl | rfl | rfl | hs
    · omega
    · omega
    · omega
    · omega
    · exact ih hrest s hs

theorem b64Index_b64Char : ∀ n < 64, b64Index (b64Char n) = n := by decide

theorem b64Char_ne_pad : ∀ n < 64, b64Char n ≠ '=' := by decide

theorem base64_roundtrip (bs : List Nat) (h : ∀ b ∈ bs, b < 256) :
    base64Decode (base64Encode bs) = bs := by
  unfold base64Decode base64Encode
  have hlt := toSextets_lt bs h
  have hfilter :
      ((toSextets bs).map b64Char ++ List.replicate ((3 - bs.length % 3) % 3) '=').filter
        (fun c => c ≠ '=') = (toSextets bs).map b64Char := by
    rw [List.filter_append]
    have h1 : ((toSextets bs).map b64Char).filter (fun c => c ≠ '=') =
        (toSextets bs).map b64Char := by
      apply List.filter_eq_self.mpr
      intro c hc
      rcases List.mem_map.mp hc with ⟨s, hs, rfl⟩
      simpa using b64Char_ne_pad s (hlt s hs)
    have h2 : (List.replicate ((3 - bs.length % 3) % 3) '=').filter
        (fun c => c ≠ '=') = [] := by
      apply List.filter_eq_nil_iff.mpr
      intro c hc
      simp [List.eq_of_mem_replicate hc]
    rw [h1, h2, List.append_nil]
  rw [hfilter, List.map_map]
  have hmap : (toSextets bs).map (b64Index ∘ b64Char) = toSextets bs := by
    conv_rhs => rw [← List.map_id (toSextets bs)]
    apply List.map_congr_left
    intro s hs
    simpa using b64Index_b64Char s (hlt s hs)
  rw [hmap]
  exact sextetsToBytes_toSextets bs h

/-! ### Errors, events, outcomes

`ApiError` models the two relevant classes of failure of a remote call:
`http` is an `api.HTTPError` (what `errors.As(err, &httpError)` matches),
`network` is any other error value (transport failure, decode failure, ...).
`Outcome` adds a `panics` constructor for runs on which the Go code would
panic (failed type assertion, out-of-range index) rather than return. -/

inductive GitError where
  | fail (msg : String)
deriving DecidableEq

inductive ApiError where
  | http (statusCode : Nat) (message : String)
  | network (msg : String)
deriving DecidableEq

inductive CommitError where
  | noFilesSpecified
  | unexpectedStagedFiles
  | api (e : ApiError)
  | git (e : GitError)
  | branchesDiverged (localRef remoteRef : String)
  | snapshotFailed (file : String)
deriving DecidableEq

inductive Outcome (α : Type) where
  | ok (a : α)
  | err (e : CommitError)
  | panics
deriving DecidableEq

/-- One entry of the `tree` array sent to the tree-creation endpoint
(the Go `map[string]interface{}` with keys path/mode/type/sha). -/
structure TreeEntry where
  path : String
  mode : String
  entryType : String
  sha : Option String
deriving DecidableEq

/-- A remote object-store API call, as issued by `makeRequest`. -/
inductive ApiCall where
  | getBranch (branch : String)
  | getTree (sha : String)
  | createBlob (content : List Char)
  | createTree (baseTree : String) (entries : List TreeEntry)
  | createCommit (message : String) (tree : String) (parents : List String)
  | createRef (ref : String) (sha : String)
  | updateRef (branch : String) (sha : String)
deriving DecidableEq

/-- One observable side effect of a run: a remote API call, a local VCS
subprocess invocation, a snapshot copy into the temporary directory, or a
restore of a snapshot file back over its working-tree path. -/
inductive Event where
  | api (c : ApiCall)
  | git (args : List String)
  | snapshotCopy (file : String)
  | restore (file : String)
deriving DecidableEq

/-- A fallible step together with the trace of events it issued. -/
abbrev Step (α : Type) := Outcome α × List Event

/-- Sequencing of steps: Go's `x, err := f(...); if err != nil { return ... }`
pattern, accumulating the event trace. -/
def stepBind {α β : Type} (x : Step α) (f : α → Step β) : Step β :=
  match x with
  | (.ok a, tr) => ((f a).1, tr ++ (f a).2)
  | (.err e, tr) => (.err e, tr)
  | (.panics, tr) => (.panics, tr)

theorem stepBind_ok {α β : Type} {x : Step α} {f : α → Step β} {b : β}
    (h : (stepBind x f).1 = .ok b) : ∃ a, x.1 = .ok a ∧ (f a).1 = .ok b := by
  obtain ⟨o, tr⟩ := x
  cases o with
  | ok a => exact ⟨a, rfl, by simpa [stepBind] using h⟩
  | err e => simp [stepBind] at h
  | panics => simp [stepBind] at h

theorem stepBind_eq_of_ok {α β : Type} {x : Step α} {f : α → Step β} {a : α}
    (h : x.1 = .ok a) : stepBind x f = ((f a).1, x.2 ++ (f a).2) := by
  obtain ⟨o, tr⟩ := x
  cases o with
  | ok a2 => cases h; rfl
  | err e => simp at h
  | panics => simp at h

theorem stepBind_eq_of_err {α β : Type} {x : Step α} {f : α → Step β} {e : CommitError}
    (h : x.1 = .err e) : stepBind x f = (.err e, x.2) := by
  obtain ⟨o, tr⟩ := x
  cases o with
  | ok a2 => simp at h
  | err e2 => cases h; rfl
  | panics => simp at h

theorem stepBind_mem {α β : Type} {x : Step α} {f : α → Step β} {e : Event}
    (h : e ∈ (stepBind x f).2) : e ∈ x.2 ∨ ∃ a, x.1 = .ok a ∧ e ∈ (f a).2 := by
  obtain ⟨o, tr⟩ := x
  cases o with
  | ok a =>
    simp only [stepBind, List.mem_append] at h
    rcases h with h | h
    · exact Or.inl h
    · exact Or.inr ⟨a, rfl, h⟩
  | err e2 => exact Or.inl h
  | panics => exact Or.inl h

theorem stepBind_forall {α β : Type} {P : Event → Prop} {x : Step α} {f : α → Step β}
    (hx : ∀ e ∈ x.2, P e) (hf : ∀ a, ∀ e ∈ (f a).2, P e) :
    ∀ e ∈ (stepBind x f).2, P e := by
  intro e he
  rcases stepBind_mem he with h | ⟨a, _, h⟩
  · exact hx e h
  · exact hf a e h

/-! ### Local VCS layer

The subprocess runner is an environment function from an argument list to the
raw standard output (or an error); `getGitOutput` post-processes the output
exactly as the source does: trim surrounding whitespace, split on newlines,
prune blank lines. -/

/-- The external VCS runner: arguments to raw stdout. -/
abbrev GitRunner := List String → Except GitError String

/-- Output processing of `getGitOutput`: trim, split on newlines, prune blanks. -/
def processGitOutput (s : String) : List String :=
  (splitLines (trimSpace s)).filter (fun item => item ≠ "")

/-- `getGitOutput`: run a VCS command, return processed output lines. -/
def getGitOutput (git : GitRunner) (command : List String) : Except GitError (List String) :=
  match git command with
  | .error e => .error e
  | .ok out => .ok (processGitOutput out)

/-- `getGitOutput` together with the subprocess-invocation event it issues. -/
def getGitOutputStep (git : GitRunner) (command : List String) :
    Except GitError (List String) × List Event :=
  (getGitOutput git command, [Event.git command])

/-- `listStagedFiles`: `git diff --name-only --cached`. -/
def listStagedFiles (git : GitRunner) : Except GitError (List String) :=
  getGitOutput git ["diff", "--name-only", "--cached"]

/-- The filename extraction applied to each `git add --dry-run` output line:
`strings.Trim(strings.Replace(line, "add ", "", 1), "'")`. -/
def extractFilename (commandResult : String) : String :=
  trimChar '\'' (replaceFirst commandResult "add " "")

/-- The argument list built by `listFilesUsingPatterns` (`command[1:]`). -/
def addDryRunCommand (patterns : List String) (force excludeUntracked : Bool) : List String :=
  (["add", "--dry-run"] ++
    (if excludeUntracked then ["-u"] else if force then ["-f"] else [])) ++ patterns

/-- `listFilesUsingPatterns`: enumerate the files a `git add --dry-run` of the
given patterns would stage. -/
def listFilesUsingPatterns (git : GitRunner) (patterns : List String)
    (force excludeUntracked : Bool) : Except GitError (List String) :=
  match getGitOutput git (addDryRunCommand patterns force excludeUntracked) with
  | .error e => .error e
  | .ok commandOutput => .ok (commandOutput.map extractFilename)

/-! ### Command options and file selection -/

/-- `commitOptions`. `patternMatches` is an `Option` because the Go field is a
slice that the selection logic compares against `nil`: `none` models a nil
slice, `some l` a non-nil slice (possibly empty). -/
structure CommitOptions where
  commitMessage : String
  patternMatches : Option (List String)
  branch : String
  commitAll : Bool
  force : Bool
  includeUntracked : Bool
  includeStagedFiles : Bool
  syncWithRemote : Bool
  dryRun : Bool

/-- `len` of a possibly-nil slice. -/
def sliceLen : Option (List String) → Nat
  | none => 0
  | some l => l.length

/-- The list held by a possibly-nil slice. -/
def sliceList : Option (List String) → List String
  | none => []
  | some l => l

/-- `listFilesForCommit`, including the guard exactly as written in the source:
`if !opts.CommitAll && (opts.PatternMatches != nil || len(opts.PatternMatches) == 0)`.
Returns the selection and the trace of VCS invocations issued. -/
def listFilesForCommit (git : GitRunner) (opts : CommitOptions) :
    Except CommitError (List String) × List Event :=
  if !opts.commitAll && (opts.patternMatches.isSome || sliceLen opts.patternMatches == 0) then
    (.error .noFilesSpecified, [])
  else if opts.commitAll then
    match getGitOutputStep git (addDryRunCommand ["."] opts.force !opts.includeUntracked) with
    | (.error e, tr) => (.error (.git e), tr)
    | (.ok commandOutput, tr) => (.ok (commandOutput.map extractFilename), tr)
  else
    match getGitOutputStep git
        (addDryRunCommand (sliceList opts.patternMatches) opts.force !opts.includeUntracked) with
    | (.error e, tr) => (.error (.git e), tr)
    | (.ok commandOutput, tr) => (.ok (commandOutput.map extractFilename), tr)

/-! ### Remote object-store layer

The remote service is an environment record giving the response of each
endpoint. The tree query's response is kept as a raw string-keyed map
(`List (String × JValue)`) because `getTreeTip` accesses it with an unchecked
type assertion `output["sha"].(string)`; every other endpoint's response is
decoded into a typed struct by the source, so only the used field is kept. -/

/-- A JSON-ish value in a decoded `map[string]interface{}`. -/
inductive JValue where
  | str (s : String)
  | null
  | other
deriving DecidableEq

/-- The remote endpoints, as response functions. -/
structure RemoteEnv where
  branchResp : String → Except ApiError String
  treeResp : String → Except ApiError (List (String × JValue))
  blobResp : List Char → Except ApiError String
  createTreeResp : String → List TreeEntry → Except ApiError String
  commitResp : String → String → List String → Except ApiError String
  createRefResp : String → String → Except ApiError Unit
  updateRefResp : String → String → Except ApiError Unit

def outcomeOfExcept {α : Type} : Except ApiError α → Outcome α
  | .ok a => .ok a
  | .error e => .err (.api e)

/-- The branch-not-found test of `getLatestCommit`:
`errors.As(err, &httpError) && (httpError.StatusCode != 404 || httpError.Message != "Branch not found")`.
`true` means the error is returned to the caller, `false` means the code falls
through to the default-branch query. -/
def isNonNotFoundHttp (e : ApiError) : Bool :=
  match e with
  | .http statusCode message => statusCode != 404 || message != "Branch not found"
  | .network _ => false

/-- `getLatestCommit(defaultBranch, branch)`: returns (branch exists, tip sha)
or an error, with the trace of branch queries issued. On a failing default-branch
query the source returns the zero value of the decoded struct (sha `""`) and a
nil error. -/
def getLatestCommit (renv : RemoteEnv) (defaultBranch branch : String) :
    Except ApiError (Bool × String) × List Event :=
  match renv.branchResp branch with
  | .ok sha => (.ok (true, sha), [Event.api (.getBranch branch)])
  | .error e =>
    if isNonNotFoundHttp e then
      (.error e, [Event.api (.getBranch branch)])
    else
      match renv.branchResp defaultBranch with
      | .ok dsha =>
        (.ok (false, dsha), [Event.api (.getBranch branch), Event.api (.getBranch defaultBranch)])
      | .error _ =>
        (.ok (false, ""), [Event.api (.getBranch branch), Event.api (.getBranch defaultBranch)])

/-- `getLatestCommit` as a pipeline step. -/
def getLatestCommitStep (renv : RemoteEnv) (defaultBranch branch : String) :
    Step (Bool × String) :=
  (outcomeOfExcept (getLatestCommit renv defaultBranch branch).1,
    (getLatestCommit renv defaultBranch branch).2)

/-- `getTreeTip` as written in `commit.go`: the call's error is checked, but
the `"sha"` field access is an unchecked type assertion, so a well-formed
response without a string `"sha"` field panics. -/
def getTreeTip (renv : RemoteEnv) (latestCommit : String) : Step String :=
  match renv.treeResp latestCommit with
  | .error e => (.err (.api e), [Event.api (.getTree latestCommit)])
  | .ok output =>
    match output.lookup "sha" with
    | some (.str s) => (.ok s, [Event.api (.getTree latestCommit)])
    | _ => (.panics, [Event.api (.getTree latestCommit)])

/-- `getTreeTip` as written in the unnamed variant: the call's error is
explicitly discarded (`output, _ := makeRequest(...)`), so on a failing call
the nil map is indexed and the type assertion panics instead of returning the
error. -/
def getTreeTipRef (renv : RemoteEnv) (latestCommit : String) : Step String :=
  match renv.treeResp latestCommit with
  | .error _ => (.panics, [Event.api (.getTree latestCommit)])
  | .ok output =>
    match output.lookup "sha" with
    | some (.str s) => (.ok s, [Event.api (.getTree latestCommit)])
    | _ => (.panics, [Event.api (.getTree latestCommit)])

/-- The local file system: path to file bytes, `none` when the path does not
exist (`os.Stat` + `os.IsNotExist`). -/
abbrev FileSys := String → Option (List Nat)

/-- `createBlobs`: one tree entry per file, null sha and no upload for a
non-existent path, one blob upload of the base64-encoded content for an
existing path; the first upload failure aborts. -/
def createBlobs (fs : FileSys) (renv : RemoteEnv) : List String → Step (List TreeEntry)
  | [] => (.ok [], [])
  | file :: rest =>
    match fs file with
    | none =>
      stepBind (createBlobs fs renv rest) fun blobs =>
        (.ok (⟨file, "100644", "blob", none⟩ :: blobs), [])
    | some data =>
      let encoded := base64Encode data
      stepBind (outcomeOfExcept (renv.blobResp encoded), [Event.api (.createBlob encoded)])
        fun sha =>
          stepBind (createBlobs fs renv rest) fun blobs =>
            (.ok (⟨file, "100644", "blob", some sha⟩ :: blobs), [])

/-- `createNewTree`: one tree-creation call with the base tree and all entries. -/
def createNewTree (renv : RemoteEnv) (treeSha : String) (blobs : List TreeEntry) :
    Step String :=
  (outcomeOfExcept (renv.createTreeResp treeSha blobs),
    [Event.api (.createTree treeSha blobs)])

/-- `commitTree`: one commit-creation call with a single-element parents list. -/
def commitTree (renv : RemoteEnv) (treeSha latestCommit commitMessage : String) :
    Step String :=
  (outcomeOfExcept (renv.commitResp commitMessage treeSha [latestCommit]),
    [Event.api (.createCommit commitMessage treeSha [latestCommit])])

/-- `createNewBranch`: one ref-creation call for `refs/heads/<branch>`. -/
def createNewBranch (renv : RemoteEnv) (commitSha branchName : String) : Step Unit :=
  (outcomeOfExcept (renv.createRefResp ("refs/heads/" ++ branchName) commitSha),
    [Event.api (.createRef ("refs/heads/" ++ branchName) commitSha)])

/-- `updateBranch`: one ref-update call for the target branch. -/
def updateBranch (renv : RemoteEnv) (commitSha branchName : String) : Step Unit :=
  (outcomeOfExcept (renv.updateRefResp branchName commitSha),
    [Event.api (.updateRef branchName commitSha)])

/-- The tail of the commit transaction after branch resolution and optional
branch creation: base-tree fetch, blob uploads, tree creation, commit
creation, ref update, each short-circuiting on failure. -/
def postBranchSteps (renv : RemoteEnv) (fs : FileSys)
    (branch message latestCommit : String) (files : List String) : Step Unit :=
  stepBind (getTreeTip renv latestCommit) fun treeTip =>
  stepBind (createBlobs fs renv files) fun blobs =>
  stepBind (createNewTree renv treeTip blobs) fun newTreeSha =>
  stepBind (commitTree renv newTreeSha latestCommit message) fun newCommitSha =>
  updateBranch renv newCommitSha branch

/-- The commit transaction: the body of `createCommit` from branch resolution
through the ref update (lines 153-182 of `commit.go`), with the source's
short-circuit on every failing step. -/
def commitTransaction (renv : RemoteEnv) (fs : FileSys)
    (defaultBranch branch message : String) (files : List String) : Step Unit :=
  stepBind (getLatestCommitStep renv defaultBranch branch) fun res =>
  stepBind (if res.1 then ((.ok () : Outcome Unit), ([] : List Event))
            else createNewBranch renv res.2 branch) fun _ =>
  postBranchSteps renv fs branch message res.2 files

/-! ### Snapshot utilities and the local-sync reconciliation protocol -/

/-- `copyFilesToTempDir`: copy every file into a fresh temporary directory,
preserving relative paths. The model records the copied `(path, bytes)` pairs;
a path missing from the working tree makes the underlying `copyFile` fail at
`os.Open`, aborting with an error. -/
def copyFilesToTempDir (fs : FileSys) :
    List String → Except CommitError (List (String × List Nat)) × List Event
  | [] => (.ok [], [])
  | file :: rest =>
    match fs file with
    | none => (.error (.snapshotFailed file), [])
    | some data =>
      match copyFilesToTempDir fs rest with
      | (.error e, tr) => (.error e, Event.snapshotCopy file :: tr)
      | (.ok snap, tr) => (.ok ((file, data) :: snap), Event.snapshotCopy file :: tr)

/-- The result of one `syncWithRemote` run: its outcome, the ordered event
trace, and the final contents of the temporary snapshot directory (`none` if
the snapshot was never successfully taken). Nothing in the protocol ever
deletes the snapshot directory. -/
structure SyncResult where
  outcome : Outcome Unit
  trace : List Event
  snapshot : Option (List (String × List Nat))

/-- `syncWithRemote` (the LocalSyncReconciler variant with snapshot backup,
divergence check and stash drop): fetch; enumerate modified/untracked files
(`git add --dry-run .`, untracked included, not forced); snapshot them;
stash; checkout; pull; compare `HEAD` against `origin/<branch>` and fail with
the divergence error carrying both trimmed references if they differ; restore
every snapshot file; drop (not pop) the stash. Indexing `localHash[0]` /
`remoteHash[0]` on an empty output panics, as in Go. -/
def syncWithRemote (git : GitRunner) (fs : FileSys) (branchName : String) : SyncResult :=
  let e1 := [Event.git ["fetch"]]
  match getGitOutput git ["fetch"] with
  | .error e => ⟨.err (.git e), e1, none⟩
  | .ok _ =>
    let cmd2 := addDryRunCommand ["."] false false
    let e2 := e1 ++ [Event.git cmd2]
    match getGitOutput git cmd2 with
    | .error e => ⟨.err (.git e), e2, none⟩
    | .ok outLines =>
      let backupFiles := outLines.map extractFilename
      match copyFilesToTempDir fs backupFiles with
      | (.error e, ctr) => ⟨.err e, e2 ++ ctr, none⟩
      | (.ok snap, ctr) =>
        let e3 := e2 ++ ctr
        let e4 := e3 ++ [Event.git ["stash", "push", "--include-untracked"]]
        match getGitOutput git ["stash", "push", "--include-untracked"] with
        | .error e => ⟨.err (.git e), e4, some snap⟩
        | .ok _ =>
          let e5 := e4 ++ [Event.git ["checkout", branchName]]
          match getGitOutput git ["checkout", branchName] with
          | .error e => ⟨.err (.git e), e5, some snap⟩
          | .ok _ =>
            let e6 := e5 ++ [Event.git ["pull"]]
            match getGitOutput git ["pull"] with
            | .error e => ⟨.err (.git e), e6, some snap⟩
            | .ok _ =>
              let e7 := e6 ++ [Event.git ["rev-parse", "HEAD"]]
              match getGitOutput git ["rev-parse", "HEAD"] with
              | .error e => ⟨.err (.git e), e7, some snap⟩
              | .ok localHash =>
                let e8 := e7 ++ [Event.git ["rev-parse", "origin/" ++ branchName]]
                match getGitOutput git ["rev-parse", "origin/" ++ branchName] with
                | .error e => ⟨.err (.git e), e8, some snap⟩
                | .ok remoteHash =>
                  match localHash, remoteHash with
                  | l :: _, r :: _ =>
                    if trimSpace l ≠ trimSpace r then
                      ⟨.err (.branchesDiverged (trimSpace l) (trimSpace r)), e8, some snap⟩
                    else
                      let e9 := e8 ++ backupFiles.map Event.restore
                      let e10 := e9 ++ [Event.git ["stash", "drop"]]
                      match getGitOutput git ["stash", "drop"] with
                      | .error e => ⟨.err (.git e), e10, some snap⟩
                      | .ok _ => ⟨.ok (), e10, some snap⟩
                  | _, _ => ⟨.panics, e8, some snap⟩

/-! ### The whole command -/

/-- The external context of one `createCommit` run: the outcome of
`setupContext` (whose success carries the resolved default branch), the VCS
runner, the file system and the remote service. -/
structure Env where
  setup : Except ApiError String
  git : GitRunner
  fs : FileSys
  remote : RemoteEnv

/-- `createCommit`: the full pipeline. Exactly as in the source, a failing
`setupContext` returns a nil error immediately; a failing `listStagedFiles`
is ignored (its error variable is overwritten before it is checked); staged
files with `IncludeStagedFiles` unset abort with the staged-files error;
then file selection, the commit transaction, and optionally the local sync. -/
def createCommit (env : Env) (opts : CommitOptions) : Outcome Unit × List Event :=
  match env.setup with
  | .error _ => (.ok (), [])
  | .ok defaultBranch =>
    let tr1 := [Event.git ["diff", "--name-only", "--cached"]]
    let alreadyStagedFiles := match listStagedFiles env.git with
      | .ok l => l
      | .error _ => []
    if alreadyStagedFiles.length > 0 ∧ opts.includeStagedFiles = false then
      (.err .unexpectedStagedFiles, tr1)
    else
      match listFilesForCommit env.git opts with
      | (.error e, tr2) => (.err e, tr1 ++ tr2)
      | (.ok files, tr2) =>
        let filesToCommit := files ++ alreadyStagedFiles
        let (out, tr3) := commitTransaction env.remote env.fs defaultBranch
          opts.branch opts.commitMessage filesToCommit
        match out with
        | .ok _ =>
          if opts.syncWithRemote then
            let s := syncWithRemote env.git env.fs opts.branch
            (s.outcome, tr1 ++ tr2 ++ tr3 ++ s.trace)
          else (.ok (), tr1 ++ tr2 ++ tr3)
        | o => (o, tr1 ++ tr2 ++ tr3)

/-! ### Event discriminators and trace-shape lemmas -/

/-- Is the event a branch-creation call (`POST /git/refs`)? -/
def isBranchCreate : Event → Bool
  | .api (.createRef _ _) => true
  | _ => false

/-- Is the event a tree-creation call (`POST /git/trees`)? -/
def isTreeCreate : Event → Bool
  | .api (.createTree _ _) => true
  | _ => false

/-- Is the event a commit-creation call (`POST /git/commits`)? -/
def isCommitCreate : Event → Bool
  | .api (.createCommit _ _ _) => true
  | _ => false

/-- Is the event a ref-update call (`POST /git/refs/heads/<branch>`)? -/
def isRefUpdate : Event → Bool
  | .api (.updateRef _ _) => true
  | _ => false

/-- Is the event a blob-upload call (`POST /git/blobs`)? -/
def isBlobUpload : Event → Bool
  | .api (.createBlob _) => true
  | _ => false

/-- Is the event a snapshot copy into the temporary directory? -/
def isSnapshotCopy : Event → Bool
  | .snapshotCopy _ => true
  | _ => false

/-- Is the event one of the destructive local steps (stash, checkout, pull)? -/
def isDestructiveGit : Event → Bool
  | .git ("stash" :: _) => true
  | .git ("checkout" :: _) => true
  | .git ("pull" :: _) => true
  | _ => false

theorem getLatestCommit_trace (renv : RemoteEnv) (defaultBranch branch : String) :
    ∀ e ∈ (getLatestCommit renv defaultBranch branch).2,
      ∃ br, e = Event.api (.getBranch br) := by
  unfold getLatestCommit
  rcases renv.branchResp branch with e1 | sha
  all_goals dsimp only
  · by_cases hp : isNonNotFoundHttp e1 = true
    · rw [if_pos hp]
      intro e he
      simp at he
      exact ⟨branch, he⟩
    · rw [if_neg hp]
      rcases renv.branchResp defaultBranch with e2 | dsha <;>
      · intro e he
        simp at he
        rcases he with he | he
        · exact ⟨branch, he⟩
        · exact ⟨defaultBranch, he⟩
  · intro e he
    simp at he
    exact ⟨branch, he⟩

theorem createBlobs_trace (fs : FileSys) (renv : RemoteEnv) (files : List String) :
    ∀ e ∈ (createBlobs fs renv files).2, ∃ c, e = Event.api (.createBlob c) := by
  induction files with
  | nil => intro e he; simp [createBlobs] at he
  | cons file rest ih =>
    intro e he
    rcases hfs : fs file with _ | data
    · simp only [createBlobs, hfs] at he
      rcases stepBind_mem he with h | ⟨a, _, h⟩
      · exact ih e h
      · simp at h
    · simp only [createBlobs, hfs] at he
      rcases stepBind_mem he with h | ⟨a, _, h⟩
      · simp at h
        exact ⟨base64Encode data, h⟩
      · rcases stepBind_mem h with h2 | ⟨b, _, h2⟩
        · exact ih e h2
        · simp at h2

theorem copyFilesToTempDir_trace (fs : FileSys) (files : List String) :
    ∀ e ∈ (copyFilesToTempDir fs files).2, ∃ f, e = Event.snapshotCopy f := by
  induction files with
  | nil => intro e he; simp [copyFilesToTempDir] at he
  | cons file rest ih =>
    intro e he
    rcases hfs : fs file with _ | data
    · simp [copyFilesToTempDir, hfs] at he
    · simp only [copyFilesToTempDir, hfs] at he
      rcases hrec : copyFilesToTempDir fs rest with ⟨r, tr⟩
      rw [hrec] at he
      rcases r with e2 | snap <;> simp at he <;> rcases he with he | he
      · exact ⟨file, he⟩
      · exact ih e (by rw [hrec]; exact he)
      · exact ⟨file, he⟩
      · exact ih e (by rw [hrec]; exact he)

theorem copyFilesToTempDir_ok (fs : FileSys) (files : List String)
    (snap : List (String × List Nat))
    (h : (copyFilesToTempDir fs files).1 = .ok snap) :
    snap.map Prod.fst = files ∧ ∀ p d, (p, d) ∈ snap → fs p = some d := by
  induction files generalizing snap with
  | nil =>
    simp only [copyFilesToTempDir, Except.ok.injEq] at h
    subst h
    simp
  | cons file rest ih =>
    rcases hfs : fs file with _ | data
    · simp [copyFilesToTempDir, hfs] at h
    · simp only [copyFilesToTempDir, hfs] at h
      rcases hrec : copyFilesToTempDir fs rest with ⟨r, tr⟩
      rw [hrec] at h
      rcases r with e2 | snap2
      · simp at h
      · simp only [Except.ok.injEq] at h
        subst h
        have hih := ih snap2 (by rw [hrec])
        refine ⟨by simp [hih.1], ?_⟩
        intro p d hpd
        rcases List.mem_cons.mp hpd with hpd | hpd
        · rw [Prod.mk.injEq] at hpd
          obtain ⟨rfl, rfl⟩ := hpd
          exact hfs
        · exact hih.2 p d hpd

theorem getTreeTip_trace (renv : RemoteEnv) (s : String) :
    (getTreeTip renv s).2 = [Event.api (.getTree s)] := by
  unfold getTreeTip
  rcases renv.treeResp s with e | output
  · rfl
  · dsimp only
    rcases output.lookup "sha" with _ | v
    · rfl
    · rcases v with s2 | _ | _ <;> rfl

theorem outcomeOfExcept_ok {α : Type} {x : Except ApiError α} {a : α}
    (h : outcomeOfExcept x = .ok a) : x = .ok a := by
  cases x with
  | error e => simp [outcomeOfExcept] at h
  | ok b => simp [outcomeOfExcept] at h; rw [h]

theorem getLatestCommitStep_ok {renv : RemoteEnv} {defaultBranch branch : String}
    {res : Bool × String} (h : (getLatestCommit renv defaultBranch branch).1 = .ok res) :
    (getLatestCommitStep renv defaultBranch branch).1 = .ok res := by
  unfold getLatestCommitStep
  rw [h]
  rfl

theorem getLatestCommitStep_err {renv : RemoteEnv} {defaultBranch branch : String}
    {e : ApiError} (h : (getLatestCommit renv defaultBranch branch).1 = .error e) :
    (getLatestCommitStep renv defaultBranch branch).1 = .err (.api e) := by
  unfold getLatestCommitStep
  rw [h]
  rfl

theorem postBranchSteps_no_branchCreate (renv : RemoteEnv) (fs : FileSys)
    (branch message tip : String) (files : List String) :
    ∀ e ∈ (postBranchSteps renv fs branch message tip files).2,
      isBranchCreate e = false := by
  unfold postBranchSteps
  apply stepBind_forall
  · rw [getTreeTip_trace]
    intro e he
    simp at he
    subst he
    rfl
  · intro treeTip
    apply stepBind_forall
    · intro e he
      obtain ⟨c, rfl⟩ := createBlobs_trace fs renv files e he
      rfl
    · intro blobs
      apply stepBind_forall
      · intro e he
        simp [createNewTree] at he
        subst he
        rfl
      · intro newTreeSha
        apply stepBind_forall
        · intro e he
          simp [commitTree] at he
          subst he
          rfl
        · intro newCommitSha e he
          simp [updateBranch] at he
          subst he
          rfl

theorem postBranchSteps_ok_shape (renv : RemoteEnv) (fs : FileSys)
    (branch message tip : String) (files : List String)
    (h : (postBranchSteps renv fs branch message tip files).1 = .ok ()) :
    ∃ pre sha, (postBranchSteps renv fs branch message tip files).2 =
        pre ++ [Event.api (.updateRef branch sha)] ∧
      ∀ e ∈ pre, isRefUpdate e = false := by
  unfold postBranchSteps at h ⊢
  obtain ⟨treeTip, h1, h⟩ := stepBind_ok h
  obtain ⟨blobs, h2, h⟩ := stepBind_ok h
  obtain ⟨newTreeSha, h3, h⟩ := stepBind_ok h
  obtain ⟨newCommitSha, h4, h5⟩ := stepBind_ok h
  rw [stepBind_eq_of_ok h1]
  dsimp only
  rw [stepBind_eq_of_ok h2]
  dsimp only
  rw [stepBind_eq_of_ok h3]
  dsimp only
  rw [stepBind_eq_of_ok h4]
  dsimp only
  refine ⟨(getTreeTip renv tip).2 ++ ((createBlobs fs renv files).2 ++
    ((createNewTree renv treeTip blobs).2 ++ (commitTree renv newTreeSha tip message).2)),
    newCommitSha, by simp [updateBranch], ?_⟩
  intro e he
  simp only [List.mem_append] at he
  rcases he with he | he | he | he
  · rw [getTreeTip_trace] at he
    simp at he
    subst he
    rfl
  · obtain ⟨c, rfl⟩ := createBlobs_trace fs renv files e he
    rfl
  · simp [createNewTree] at he
    subst he
    rfl
  · simp [commitTree] at he
    subst he
    rfl

/-! ### Concrete environments used to evaluate the model on specific runs -/

/-- A remote service on which every call fails with a transport error. -/
def emptyRemote : RemoteEnv where
  branchResp := fun _ => .error (.network "unreachable")
  treeResp := fun _ => .error (.network "unreachable")
  blobResp := fun _ => .error (.network "unreachable")
  createTreeResp := fun _ _ => .error (.network "unreachable")
  commitResp := fun _ _ _ => .error (.network "unreachable")
  createRefResp := fun _ _ => .error (.network "unreachable")
  updateRefResp := fun _ _ => .error (.network "unreachable")

/-- Options of `gh commit file1 file2 -b main -m "commit message"`. -/
def optsExplicit : CommitOptions where
  commitMessage := "commit message"
  patternMatches := some ["file1", "file2"]
  branch := "main"
  commitAll := false
  force := false
  includeUntracked := false
  includeStagedFiles := false
  syncWithRemote := false
  dryRun := false

/-- A VCS runner that succeeds on every command with empty output. -/
def quietGit : GitRunner := fun _ => .ok ""

/-! ### Claim C1 -/

/-- Claim C1 (file selection with explicit paths). The first half of the claim
holds, but the second fails on the code: the guard condition
`!opts.CommitAll && (opts.PatternMatches != nil || len(opts.PatternMatches) == 0)`
is a tautology in its second conjunct, so for every input with
`commitAllFlag` false — even with a non-empty explicit path list — selection
fails with `NoFilesSpecified` and the pattern-resolution branch is dead code.
The first conjunct evaluates the code at the failing input
(`commitAll = false`, paths `["file1", "file2"]`); the second shows the guard
fires for every non-`commitAll` input. -/
theorem c1_nonempty_patterns_still_rejected :
    listFilesForCommit quietGit optsExplicit =
      (.error .noFilesSpecified, ([] : List Event)) ∧
    ∀ git opts, opts.commitAll = false →
      (listFilesForCommit git opts).1 = .error .noFilesSpecified := by
  refine ⟨rfl, ?_⟩
  intro git opts h
  unfold listFilesForCommit
  rcases hpm : opts.patternMatches with _ | l <;>
    simp [h, hpm, sliceLen]

/-- Witness for the universally quantified half of the C1 theorem, at a
different concrete input (`commitAll = false`, a nil pattern slice). -/
theorem c1_nonempty_patterns_still_rejected_witness :
    (listFilesForCommit quietGit
      { optsExplicit with patternMatches := some ["cmd/main.go"] }).1 =
      .error .noFilesSpecified :=
  c1_nonempty_patterns_still_rejected.2 quietGit
    { optsExplicit with patternMatches := some ["cmd/main.go"] } rfl

/-! ### Claim C2 -/

/-- Claim C2: if `setupContext` fails (HTTP-client construction, base-repo
resolution, config load, or default-branch lookup), `createCommit` returns a
nil error — the run reports success while issuing no VCS invocation, no
remote call and no ref mutation (the event trace is empty). -/
theorem c2_setup_failure_reports_success (env : Env) (opts : CommitOptions)
    (e : ApiError) (h : env.setup = .error e) :
    createCommit env opts = (.ok (), ([] : List Event)) := by
  unfold createCommit
  rw [h]

/-- The environment of a run whose context setup fails. -/
def setupFailEnv : Env where
  setup := .error (.network "dial tcp: connection refused")
  git := quietGit
  fs := fun _ => none
  remote := emptyRemote

/-- Witness for C2: a concrete run with a failing setup. -/
theorem c2_setup_failure_reports_success_witness :
    createCommit setupFailEnv optsExplicit = (.ok (), ([] : List Event)) :=
  c2_setup_failure_reports_success setupFailEnv optsExplicit
    (.network "dial tcp: connection refused") rfl

/-! ### Claim C3 -/

/-- Target branch missing (404 "Branch not found"), default-branch query
failing with a transport error. -/
def c3Remote : RemoteEnv :=
  { emptyRemote with
    branchResp := fun b =>
      if b = "main" then .error (.network "connection reset")
      else .error (.http 404 "Branch not found") }

/-- Target branch query failing with a non-HTTP (transport) error,
default branch resolving normally. -/
def c3bRemote : RemoteEnv :=
  { emptyRemote with
    branchResp := fun b =>
      if b = "main" then .ok "maintip" else .error (.network "connection reset") }

/-- Claim C3 (branch resolution error propagation). The success and
404-fallback halves of the claim hold, but the final half fails on the code:
(i) when the target branch is missing and the default-branch query then fails,
`getLatestCommit` discards that failure and returns
`{exists: false, tip: ""}` with a nil error (first conjunct); (ii) a
non-`api.HTTPError` failure of the target-branch query (e.g. a transport
error) is not propagated either — `errors.As` fails, so the code falls through
to the default branch and reports `{exists: false, tip: <default tip>}`
(second conjunct). In both runs the claimed propagation does not happen. -/
theorem c3_resolution_swallows_failures :
    (getLatestCommit c3Remote "main" "feature").1 = .ok (false, "") ∧
    (getLatestCommit c3bRemote "main" "feature").1 = .ok (false, "maintip") :=
  ⟨rfl, rfl⟩

/-! ### Claim C7 -/

/-- Claim C7: whenever the staged-file listing returns one or more paths and
`includeStagedFlag` is false, the pipeline fails with the
`UnexpectedStagedFiles` error and the event trace contains no remote API call
at all — in particular no blob upload and no object creation. -/
theorem c7_staged_files_guard (env : Env) (opts : CommitOptions)
    (defaultBranch : String) (staged : List String)
    (hsetup : env.setup = .ok defaultBranch)
    (hstaged : listStagedFiles env.git = .ok staged)
    (hne : staged ≠ [])
    (hflag : opts.includeStagedFiles = false) :
    (createCommit env opts).1 = .err .unexpectedStagedFiles ∧
    ∀ c, Event.api c ∉ (createCommit env opts).2 := by
  unfold createCommit
  rw [hsetup]
  dsimp only
  rw [hstaged]
  dsimp only
  rw [if_pos ⟨List.length_pos.mpr hne, hflag⟩]
  exact ⟨rfl, by simp⟩

/-- A VCS runner that reports one staged file. -/
def stagedGit : GitRunner := fun args =>
  if args = ["diff", "--name-only", "--cached"] then .ok "staged.txt" else .ok ""

/-- An environment with a successful setup and one staged file. -/
def stagedEnv : Env where
  setup := .ok "main"
  git := stagedGit
  fs := fun _ => none
  remote := emptyRemote

/-- Witness for C7: the guard fires on a concrete run with one staged file
and `includeStagedFlag` unset. -/
theorem c7_staged_files_guard_witness :
    (createCommit stagedEnv optsExplicit).1 = .err .unexpectedStagedFiles ∧
    ∀ c, Event.api c ∉ (createCommit stagedEnv optsExplicit).2 :=
  c7_staged_files_guard stagedEnv optsExplicit "main" ["staged.txt"]
    rfl rfl (by decide) rfl

/-! ### Claim C10 -/

/-- A tree query returning a well-formed map without a string `"sha"` field. -/
def malformedTreeRemote : RemoteEnv :=
  { emptyRemote with treeResp := fun _ => .ok [("tree", JValue.other)] }

/-- A tree query failing outright. -/
def failingTreeRemote : RemoteEnv :=
  { emptyRemote with treeResp := fun _ => .error (.network "timeout") }

/-- Claim C10: the base-tree lookup assumes its call succeeds and the
response holds a string `"sha"`. On a response without that field both
variants panic at the unchecked type assertion (first two conjuncts); on a
failing call the unnamed variant, which discards the call's error, panics on
the nil map (third conjunct), while the `commit.go` variant returns the error
(fourth conjunct). -/
theorem c10_getTreeTip_panics :
    (getTreeTip malformedTreeRemote "abc123").1 = .panics ∧
    (getTreeTipRef malformedTreeRemote "abc123").1 = .panics ∧
    (getTreeTipRef failingTreeRemote "abc123").1 = .panics ∧
    (getTreeTip failingTreeRemote "abc123").1 = .err (.api (.network "timeout")) := by
  decide

/-! ### Claim C6 -/

/-- The tree entry `createBlobs` produces for one file: null sha for a
missing path, the sha returned by the blob upload for an existing path.
(The error fallback is never reached on a successful build.) -/
def expectedEntry (fs : FileSys) (renv : RemoteEnv) (file : String) : TreeEntry :=
  match fs file with
  | none => ⟨file, "100644", "blob", none⟩
  | some data =>
    match renv.blobResp (base64Encode data) with
    | .ok sha => ⟨file, "100644", "blob", some sha⟩
    | .error _ => ⟨file, "100644", "blob", none⟩

/-- The blob-upload calls `createBlobs` issues: one per existing path, in
input order, each carrying the base64-encoded file content. -/
def expectedBlobCalls (fs : FileSys) (files : List String) : List Event :=
  files.filterMap fun f => (fs f).map fun d => Event.api (.createBlob (base64Encode d))

theorem expectedEntry_path (fs : FileSys) (renv : RemoteEnv) (file : String) :
    (expectedEntry fs renv file).path = file := by
  unfold expectedEntry
  rcases fs file with _ | data
  · rfl
  · dsimp only
    rcases renv.blobResp (base64Encode data) with e | sha <;> rfl

theorem createBlobs_ok_shape (fs : FileSys) (renv : RemoteEnv) :
    ∀ (files : List String) (entries : List TreeEntry),
      (createBlobs fs renv files).1 = .ok entries →
      entries = files.map (expectedEntry fs renv) ∧
      (createBlobs fs renv files).2 = expectedBlobCalls fs files := by
  intro files
  induction files with
  | nil =>
    intro entries h
    simp only [createBlobs, Outcome.ok.injEq] at h
    subst h
    exact ⟨rfl, rfl⟩
  | cons file rest ih =>
    intro entries h
    rcases hfs : fs file with _ | data
    · have hdef : createBlobs fs renv (file :: rest) =
          stepBind (createBlobs fs renv rest) fun blobs =>
            ((.ok (⟨file, "100644", "blob", none⟩ :: blobs) : Outcome (List TreeEntry)),
              ([] : List Event)) := by
        simp [createBlobs, hfs]
      rw [hdef] at h ⊢
      obtain ⟨blobs, hX, hg⟩ := stepBind_ok h
      obtain ⟨he, ht⟩ := ih blobs hX
      simp only [Outcome.ok.injEq] at hg
      rw [stepBind_eq_of_ok hX]
      constructor
      · rw [← hg, he]
        simp [expectedEntry, hfs]
      · simp [ht, expectedBlobCalls, hfs]
    · rcases hb : renv.blobResp (base64Encode data) with e | sha
      · simp [createBlobs, hfs, hb, stepBind, outcomeOfExcept] at h
      · have hdef : createBlobs fs renv (file :: rest) =
            stepBind ((.ok sha : Outcome String),
                [Event.api (.createBlob (base64Encode data))])
              (fun sha2 => stepBind (createBlobs fs renv rest) fun blobs =>
                ((.ok (⟨file, "100644", "blob", some sha2⟩ :: blobs) :
                    Outcome (List TreeEntry)), ([] : List Event))) := by
          simp [createBlobs, hfs, hb, outcomeOfExcept]
        rw [hdef] at h ⊢
        rw [stepBind_eq_of_ok (x := ((.ok sha : Outcome String),
          [Event.api (.createBlob (base64Encode data))])) rfl] at h ⊢
        obtain ⟨blobs, hX, hg⟩ := stepBind_ok h
        obtain ⟨he, ht⟩ := ih blobs hX
        simp only [Outcome.ok.injEq] at hg
        rw [stepBind_eq_of_ok hX]
        constructor
        · rw [← hg, he]
          simp [expectedEntry, hfs, hb]
        · simp [ht, expectedBlobCalls, hfs, hb]

/-- Claim C6 (blob construction). On every successful build: the entries are
exactly one per input file, in input order (and carry the input path); a
missing path yields a null sha and contributes no upload call; an existing
path contributes exactly one upload call carrying its base64-encoded bytes
(whose decoding recovers the bytes exactly) and its entry carries the sha that
upload returned — all visible from the `expectedEntry`/`expectedBlobCalls`
characterization. On a failed build the first upload failure aborts with an
error and the enclosing transaction issues no tree-creation call. -/
theorem c6_blob_construction (fs : FileSys) (renv : RemoteEnv) :
    (∀ (files : List String) (entries : List TreeEntry),
      (createBlobs fs renv files).1 = .ok entries →
      entries = files.map (expectedEntry fs renv) ∧
      entries.map TreeEntry.path = files ∧
      (createBlobs fs renv files).2 = expectedBlobCalls fs files) ∧
    (∀ data : List Nat, (∀ b ∈ data, b < 256) →
      base64Decode (base64Encode data) = data) ∧
    (∀ (files : List String) (e : CommitError),
      (createBlobs fs renv files).1 = .err e →
      ∀ defaultBranch branch message,
        ∀ ev ∈ (commitTransaction renv fs defaultBranch branch message files).2,
          isTreeCreate ev = false) := by
  refine ⟨?_, fun data hd => base64_roundtrip data hd, ?_⟩
  · intro files entries h
    obtain ⟨he, ht⟩ := createBlobs_ok_shape fs renv files entries h
    refine ⟨he, ?_, ht⟩
    rw [he, List.map_map]
    have : (TreeEntry.path ∘ expectedEntry fs renv) = fun f => f := by
      funext f
      exact expectedEntry_path fs renv f
    rw [this]
    exact List.map_id files
  · intro files e h defaultBranch branch message ev hev
    unfold commitTransaction at hev
    rcases stepBind_mem hev with h1 | ⟨res, hres, h1⟩
    · obtain ⟨br, rfl⟩ := getLatestCommit_trace renv defaultBranch branch ev h1
      rfl
    · rcases stepBind_mem h1 with h2 | ⟨u, hu, h2⟩
      · by_cases hb : res.1 <;> simp [hb, createNewBranch] at h2
        subst h2
        rfl
      · unfold postBranchSteps at h2
        rcases stepBind_mem h2 with h3 | ⟨treeTip, htt, h3⟩
        · rw [getTreeTip_trace] at h3
          simp at h3
          subst h3
          rfl
        · rcases stepBind_mem h3 with h4 | ⟨blobs, hblobs, h4⟩
          · obtain ⟨c, rfl⟩ := createBlobs_trace fs renv files ev h4
            rfl
          · rw [h] at hblobs
            cases hblobs

/-- The working tree for the C6 witness: `a.txt` holds the bytes of `hello`,
every other path is absent. -/
def sampleFs : FileSys := fun p =>
  if p = "a.txt" then some [104, 101, 108, 108, 111] else none

/-- A remote service whose blob endpoint accepts every upload. -/
def blobRemote : RemoteEnv :=
  { emptyRemote with blobResp := fun _ => .ok "blobsha" }

/-- Witness for C6: a concrete build of `["a.txt", "b.txt"]` where `a.txt`
exists and `b.txt` does not, plus the decode round-trip on the bytes of
`hello`. -/
theorem c6_blob_construction_witness :
    ([⟨"a.txt", "100644", "blob", some "blobsha"⟩,
      ⟨"b.txt", "100644", "blob", none⟩] : List TreeEntry) =
      ["a.txt", "b.txt"].map (expectedEntry sampleFs blobRemote) ∧
    base64Decode (base64Encode [104, 101, 108, 108, 111]) =
      [104, 101, 108, 108, 111] := by
  have h := c6_blob_construction sampleFs blobRemote
  exact ⟨(h.1 ["a.txt", "b.txt"] _ rfl).1, h.2.1 [104, 101, 108, 108, 111] (by decide)⟩

/-! ### Claim C9 -/

/-- Claim C9: every commit-creation request the transaction issues has a
parents list of exactly one element, the tip commit reference produced by
branch resolution — no run constructs a merge commit. -/
theorem c9_single_parent (renv : RemoteEnv) (fs : FileSys)
    (defaultBranch branch message : String) (files : List String) :
    ∀ m t ps, Event.api (.createCommit m t ps) ∈
        (commitTransaction renv fs defaultBranch branch message files).2 →
      ps.length = 1 ∧ ∃ ex tip,
        (getLatestCommit renv defaultBranch branch).1 = .ok (ex, tip) ∧ ps = [tip] := by
  intro m t ps hmem
  unfold commitTransaction at hmem
  rcases stepBind_mem hmem with h1 | ⟨res, hres, h1⟩
  · obtain ⟨br, heq⟩ := getLatestCommit_trace renv defaultBranch branch _ h1
    simp at heq
  · have hres2 : (getLatestCommit renv defaultBranch branch).1 = .ok res :=
      outcomeOfExcept_ok hres
    rcases stepBind_mem h1 with h2 | ⟨u, hu, h2⟩
    · by_cases hb : res.1 <;> simp [hb, createNewBranch] at h2
    · unfold postBranchSteps at h2
      rcases stepBind_mem h2 with h3 | ⟨treeTip, htt, h3⟩
      · rw [getTreeTip_trace] at h3
        simp at h3
      · rcases stepBind_mem h3 with h4 | ⟨blobs, hblobs, h4⟩
        · obtain ⟨c, heq⟩ := createBlobs_trace fs renv files _ h4
          simp at heq
        · rcases stepBind_mem h4 with h5 | ⟨newTreeSha, hnts, h5⟩
          · simp [createNewTree] at h5
          · rcases stepBind_mem h5 with h6 | ⟨newCommitSha, hncs, h6⟩
            · simp [commitTree] at h6
              obtain ⟨hm, ht2, hps⟩ := h6
              subst hps
              exact ⟨rfl, res.1, res.2, hres2, rfl⟩
            · simp [updateBranch] at h6

/-- A remote service for a fully successful run against a missing target
branch (`main` is the default branch; every other branch query is a 404). -/
def happyRemote : RemoteEnv where
  branchResp := fun b =>
    if b = "main" then .ok "maintip" else .error (.http 404 "Branch not found")
  treeResp := fun _ => .ok [("sha", JValue.str "t0")]
  blobResp := fun _ => .ok "blobsha"
  createTreeResp := fun _ _ => .ok "t1"
  commitResp := fun _ _ _ => .ok "c1"
  createRefResp := fun _ _ => .ok ()
  updateRefResp := fun _ _ => .ok ()

/-- Witness for C9: the commit-creation call of a concrete successful run
carries exactly the resolved tip as its only parent. -/
theorem c9_single_parent_witness :
    (["maintip"] : List String).length = 1 ∧ ∃ ex tip,
      (getLatestCommit happyRemote "main" "feature").1 = .ok (ex, tip) ∧
      ["maintip"] = [tip] :=
  c9_single_parent happyRemote (fun _ => none) "main" "feature" "msg" ["x.txt"]
    "msg" "t1" ["maintip"] (by decide)

/-! ### Claim C5 -/

/-- Claim C5 (transaction ordering). For every run: if branch resolution
returns `exists = false`, the trace decomposes around a single branch-creation
call whose prefix contains no branch-creation, tree-creation, commit-creation
or ref-update call and whose suffix contains no further branch-creation (so
the branch creation is unique and precedes every tree-creation,
commit-creation and ref-update call); if resolution returns `exists = true`,
no branch-creation call is ever issued; and every successful run's trace ends
with its only ref-update call. -/
theorem c5_transaction_ordering (renv : RemoteEnv) (fs : FileSys)
    (defaultBranch branch message : String) (files : List String) :
    (∀ tip, (getLatestCommit renv defaultBranch branch).1 = .ok (false, tip) →
      ∃ pre post,
        (commitTransaction renv fs defaultBranch branch message files).2 =
          pre ++ Event.api (.createRef ("refs/heads/" ++ branch) tip) :: post ∧
        (∀ e ∈ pre, isBranchCreate e = false ∧ isTreeCreate e = false ∧
          isCommitCreate e = false ∧ isRefUpdate e = false) ∧
        (∀ e ∈ post, isBranchCreate e = false)) ∧
    (∀ tip, (getLatestCommit renv defaultBranch branch).1 = .ok (true, tip) →
      ∀ e ∈ (commitTransaction renv fs defaultBranch branch message files).2,
        isBranchCreate e = false) ∧
    ((commitTransaction renv fs defaultBranch branch message files).1 = .ok () →
      ∃ pre sha,
        (commitTransaction renv fs defaultBranch branch message files).2 =
          pre ++ [Event.api (.updateRef branch sha)] ∧
        ∀ e ∈ pre, isRefUpdate e = false) := by
  refine ⟨?_, ?_, ?_⟩
  · intro tip htip
    have hstep : (getLatestCommitStep renv defaultBranch branch).1 = .ok (false, tip) :=
      getLatestCommitStep_ok htip
    unfold commitTransaction
    rw [stepBind_eq_of_ok hstep]
    dsimp only
    rw [if_neg (by simp : ¬(false = true))]
    rcases hcr : renv.createRefResp ("refs/heads/" ++ branch) tip with e2 | u
    · have hcnb : (createNewBranch renv tip branch).1 = .err (.api e2) := by
        unfold createNewBranch
        rw [hcr]
        rfl
      rw [stepBind_eq_of_err hcnb]
      refine ⟨(getLatestCommitStep renv defaultBranch branch).2, [], ?_, ?_, by simp⟩
      · simp [createNewBranch]
      · intro e he
        obtain ⟨br, rfl⟩ := getLatestCommit_trace renv defaultBranch branch e he
        exact ⟨rfl, rfl, rfl, rfl⟩
    · have hcnb : (createNewBranch renv tip branch).1 = .ok u := by
        unfold createNewBranch
        rw [hcr]
        rfl
      rw [stepBind_eq_of_ok hcnb]
      dsimp only
      refine ⟨(getLatestCommitStep renv defaultBranch branch).2,
        (postBranchSteps renv fs branch message tip files).2, ?_, ?_, ?_⟩
      · simp [createNewBranch]
      · intro e he
        obtain ⟨br, rfl⟩ := getLatestCommit_trace renv defaultBranch branch e he
        exact ⟨rfl, rfl, rfl, rfl⟩
      · exact postBranchSteps_no_branchCreate renv fs branch message tip files
  · intro tip htip
    have hstep : (getLatestCommitStep renv defaultBranch branch).1 = .ok (true, tip) :=
      getLatestCommitStep_ok htip
    unfold commitTransaction
    rw [stepBind_eq_of_ok hstep]
    dsimp only
    rw [if_pos (rfl : true = true)]
    rw [stepBind_eq_of_ok (x := ((.ok () : Outcome Unit), ([] : List Event))) rfl]
    intro e he
    simp only [List.mem_append] at he
    rcases he with he | he
    · obtain ⟨br, rfl⟩ := getLatestCommit_trace renv defaultBranch branch e he
      rfl
    · exact postBranchSteps_no_branchCreate renv fs branch message tip files e
        (by simpa using he)
  · intro hok
    unfold commitTransaction at hok ⊢
    obtain ⟨res, hres, hok2⟩ := stepBind_ok hok
    obtain ⟨u, hu, hok3⟩ := stepBind_ok hok2
    obtain ⟨pre2, sha, hshape, hpre2⟩ :=
      postBranchSteps_ok_shape renv fs branch message res.2 files hok3
    rw [stepBind_eq_of_ok hres, stepBind_eq_of_ok hu]
    dsimp only
    rw [hshape]
    refine ⟨(getLatestCommitStep renv defaultBranch branch).2 ++
      ((if res.1 then ((.ok () : Outcome Unit), ([] : List Event))
        else createNewBranch renv res.2 branch).2 ++ pre2), sha, by simp, ?_⟩
    intro e he
    simp only [List.mem_append] at he
    rcases he with he | he | he
    · obtain ⟨br, rfl⟩ := getLatestCommit_trace renv defaultBranch branch e he
      rfl
    · by_cases hb : res.1 = true <;> simp [hb, createNewBranch] at he
      subst he
      rfl
    · exact hpre2 e he

/-- Witness for C5: a successful run against a missing target branch — the
resolution hypothesis and the success hypothesis are both discharged at
concrete inputs. -/
theorem c5_transaction_ordering_witness :
    (∃ pre post,
      (commitTransaction happyRemote (fun _ => none) "main" "feature" "msg" ["x.txt"]).2 =
        pre ++ Event.api (.createRef ("refs/heads/" ++ "feature") "maintip") :: post ∧
      (∀ e ∈ pre, isBranchCreate e = false ∧ isTreeCreate e = false ∧
        isCommitCreate e = false ∧ isRefUpdate e = false) ∧
      (∀ e ∈ post, isBranchCreate e = false)) ∧
    (∃ pre sha,
      (commitTransaction happyRemote (fun _ => none) "main" "feature" "msg" ["x.txt"]).2 =
        pre ++ [Event.api (.updateRef "feature" sha)] ∧
      ∀ e ∈ pre, isRefUpdate e = false) := by
  have h := c5_transaction_ordering happyRemote (fun _ => none) "main" "feature" "msg" ["x.txt"]
  exact ⟨h.1 "maintip" rfl, h.2.2 (by decide)⟩

/-! ### Claim C4 -/

/-- Claim C4 (divergence refusal). In every reconciliation run that reaches
the post-pull comparison with differing local and remote-tracking references,
`syncWithRemote` fails with the divergence error carrying both (trimmed)
references, no stash-drop command is ever issued, and the snapshot directory
still holds one copy of every enumerated file with exactly the bytes the
working tree held when the snapshot was taken. -/
theorem c4_diverged_aborts (git : GitRunner) (fs : FileSys) (branchName : String)
    (outFetch outList outStash outCheckout outPull : List String)
    (l r : String) (ltail rtail : List String)
    (snap : List (String × List Nat)) (ctr : List Event)
    (hFetch : getGitOutput git ["fetch"] = .ok outFetch)
    (hList : getGitOutput git (addDryRunCommand ["."] false false) = .ok outList)
    (hSnap : copyFilesToTempDir fs (outList.map extractFilename) = (.ok snap, ctr))
    (hStash : getGitOutput git ["stash", "push", "--include-untracked"] = .ok outStash)
    (hCheckout : getGitOutput git ["checkout", branchName] = .ok outCheckout)
    (hPull : getGitOutput git ["pull"] = .ok outPull)
    (hLocal : getGitOutput git ["rev-parse", "HEAD"] = .ok (l :: ltail))
    (hRemote : getGitOutput git ["rev-parse", "origin/" ++ branchName] = .ok (r :: rtail))
    (hne : trimSpace l ≠ trimSpace r) :
    (syncWithRemote git fs branchName).outcome =
      .err (.branchesDiverged (trimSpace l) (trimSpace r)) ∧
    Event.git ["stash", "drop"] ∉ (syncWithRemote git fs branchName).trace ∧
    (syncWithRemote git fs branchName).snapshot = some snap ∧
    snap.map Prod.fst = outList.map extractFilename ∧
    (∀ p d, (p, d) ∈ snap → fs p = some d) := by
  have hcopy := copyFilesToTempDir_ok fs (outList.map extractFilename) snap
    (by rw [hSnap])
  have hctr : ∀ e ∈ ctr, ∃ f, e = Event.snapshotCopy f := by
    intro e he
    exact copyFilesToTempDir_trace fs (outList.map extractFilename) e (by rw [hSnap]; exact he)
  unfold syncWithRemote
  simp only [hFetch, hList, hSnap, hStash, hCheckout, hPull, hLocal, hRemote]
  rw [if_pos hne]
  refine ⟨rfl, ?_, rfl, hcopy.1, hcopy.2⟩
  intro hmem
  simp [addDryRunCommand] at hmem
  obtain ⟨f, hf⟩ := hctr _ hmem
  simp at hf

/-- The VCS runner of a diverged reconciliation run: `HEAD` and
`origin/main` resolve to different commits, one modified file is enumerated. -/
def divergedGit : GitRunner := fun args =>
  if args = ["rev-parse", "HEAD"] then .ok "aaa"
  else if args = ["rev-parse", "origin/main"] then .ok "bbb"
  else if args = ["add", "--dry-run", "."] then .ok "add a.txt"
  else .ok ""

/-- The working tree of the reconciliation witnesses: `a.txt` holds one byte. -/
def syncFs : FileSys := fun p => if p = "a.txt" then some [104] else none

/-- Witness for C4: the diverged run on the concrete environment. -/
theorem c4_diverged_aborts_witness :
    (syncWithRemote divergedGit syncFs "main").outcome =
      .err (.branchesDiverged (trimSpace "aaa") (trimSpace "bbb")) ∧
    Event.git ["stash", "drop"] ∉ (syncWithRemote divergedGit syncFs "main").trace ∧
    (syncWithRemote divergedGit syncFs "main").snapshot = some [("a.txt", [104])] ∧
    ([(("a.txt" : String), ([104] : List Nat))].map Prod.fst) =
      (["add a.txt"].map extractFilename) ∧
    (∀ p d, (p, d) ∈ [(("a.txt" : String), ([104] : List Nat))] → syncFs p = some d) :=
  c4_diverged_aborts divergedGit syncFs "main" [] ["add a.txt"] [] [] []
    "aaa" "bbb" [] [] [("a.txt", [104])] [Event.snapshotCopy "a.txt"]
    rfl rfl rfl rfl rfl rfl rfl rfl (by decide)

/-! ### Claim C8 -/

/-- Claim C8 (snapshot before destructive steps; restore then drop). In every
reconciliation run the trace splits into a prefix with no stash/checkout/pull
command (the fetch, the enumeration and all snapshot copies) followed by a
suffix with no snapshot copy — so the snapshot completes before any
destructive step begins. In every successful run the trace ends with the
restore of every snapshot file (in order) followed by the stash-drop command,
the snapshot holds exactly the enumerated files, every snapshot file has a
restore event, and no stash-pop command is ever issued. -/
theorem c8_snapshot_before_destructive (git : GitRunner) (fs : FileSys)
    (branchName : String) :
    (∃ pre post, (syncWithRemote git fs branchName).trace = pre ++ post ∧
      (∀ e ∈ pre, isDestructiveGit e = false) ∧
      (∀ e ∈ post, isSnapshotCopy e = false)) ∧
    ((syncWithRemote git fs branchName).outcome = .ok () →
      ∃ pre files snap,
        (syncWithRemote git fs branchName).trace =
          pre ++ files.map Event.restore ++ [Event.git ["stash", "drop"]] ∧
        (syncWithRemote git fs branchName).snapshot = some snap ∧
        snap.map Prod.fst = files ∧
        (∀ f ∈ files, Event.restore f ∈ (syncWithRemote git fs branchName).trace) ∧
        Event.git ["stash", "pop"] ∉ (syncWithRemote git fs branchName).trace) := by
  simp only [syncWithRemote]
  rcases h1 : getGitOutput git ["fetch"] with e1 | o1 <;> simp only [h1]
  · refine ⟨⟨[Event.git ["fetch"]], [], by simp, by decide, by simp⟩, ?_⟩
    intro h
    simp at h
  · rcases h2 : getGitOutput git (addDryRunCommand ["."] false false) with e2 | o2 <;>
      simp only [h2]
    · refine ⟨⟨[Event.git ["fetch"]] ++ [Event.git (addDryRunCommand ["."] false false)],
        [], by simp, by decide, by simp⟩, ?_⟩
      intro h
      simp at h
    · rcases h3 : copyFilesToTempDir fs (o2.map extractFilename) with ⟨r3, ctr⟩
      have hctrD : ∀ e ∈ ctr, isDestructiveGit e = false := by
        intro e he
        obtain ⟨f, rfl⟩ := copyFilesToTempDir_trace fs (o2.map extractFilename) e
          (by rw [h3]; exact he)
        rfl
      have hctrP : Event.git ["stash", "pop"] ∉ ctr := by
        intro hmem
        obtain ⟨f, hf⟩ := copyFilesToTempDir_trace fs (o2.map extractFilename) _
          (by rw [h3]; exact hmem)
        simp at hf
      rcases r3 with e3 | snap <;> simp only [h3]
      · refine ⟨⟨[Event.git ["fetch"]] ++ [Event.git (addDryRunCommand ["."] false false)]
          ++ ctr, [], by simp, ?_, by simp⟩, ?_⟩
        · intro e he
          simp only [List.mem_append, List.mem_singleton] at he
          rcases he with (rfl | rfl) | he
          · rfl
          · rfl
          · exact hctrD e he
        · intro h
          simp at h
      · have hpre : ∀ e ∈ [Event.git ["fetch"]] ++
            [Event.git (addDryRunCommand ["."] false false)] ++ ctr,
            isDestructiveGit e = false := by
          intro e he
          simp only [List.mem_append, List.mem_singleton] at he
          rcases he with (rfl | rfl) | he
          · rfl
          · rfl
          · exact hctrD e he
        rcases h4 : getGitOutput git ["stash", "push", "--include-untracked"] with e4 | o4 <;>
          simp only [h4]
        · refine ⟨⟨_, [Event.git ["stash", "push", "--include-untracked"]],
            by simp, hpre, by decide⟩, ?_⟩
          intro h
          simp at h
        · rcases h5 : getGitOutput git ["checkout", branchName] with e5 | o5 <;>
            simp only [h5]
          · refine ⟨⟨_, [Event.git ["stash", "push", "--include-untracked"]] ++
              [Event.git ["checkout", branchName]], by simp, hpre, ?_⟩, ?_⟩
            · intro e he
              simp only [List.mem_append, List.mem_singleton] at he
              rcases he with rfl | rfl <;> rfl
            · intro h
              simp at h
          · rcases h6 : getGitOutput git ["pull"] with e6 | o6 <;> simp only [h6]
            · refine ⟨⟨_, [Event.git ["stash", "push", "--include-untracked"]] ++
                [Event.git ["checkout", branchName]] ++ [Event.git ["pull"]],
                by simp, hpre, ?_⟩, ?_⟩
              · intro e he
                simp only [List.mem_append, List.mem_singleton] at he
                rcases he with (rfl | rfl) | rfl <;> rfl
              · intro h
                simp at h
            · rcases h7 : getGitOutput git ["rev-parse", "HEAD"] with e7 | o7 <;>
                simp only [h7]
              · refine ⟨⟨_, [Event.git ["stash", "push", "--include-untracked"]] ++
                  [Event.git ["checkout", branchName]] ++ [Event.git ["pull"]] ++
                  [Event.git ["rev-parse", "HEAD"]], by simp, hpre, ?_⟩, ?_⟩
                · intro e he
                  simp only [List.mem_append, List.mem_singleton] at he
                  rcases he with ((rfl | rfl) | rfl) | rfl <;> rfl
                · intro h
                  simp at h
              · rcases h8 : getGitOutput git ["rev-parse", "origin/" ++ branchName] with
                  e8 | o8 <;> simp only [h8]
                · refine ⟨⟨_, [Event.git ["stash", "push", "--include-untracked"]] ++
                    [Event.git ["checkout", branchName]] ++ [Event.git ["pull"]] ++
                    [Event.git ["rev-parse", "HEAD"]] ++
                    [Event.git ["rev-parse", "origin/" ++ branchName]],
                    by simp, hpre, ?_⟩, ?_⟩
                  · intro e he
                    simp only [List.mem_append, List.mem_singleton] at he
                    rcases he with (((rfl | rfl) | rfl) | rfl) | rfl <;> rfl
                  · intro h
                    simp at h
                · have hpost5 : ∀ e ∈ [Event.git ["stash", "push", "--include-untracked"]] ++
                      [Event.git ["checkout", branchName]] ++ [Event.git ["pull"]] ++
                      [Event.git ["rev-parse", "HEAD"]] ++
                      [Event.git ["rev-parse", "origin/" ++ branchName]],
                      isSnapshotCopy e = false := by
                    intro e he
                    simp only [List.mem_append, List.mem_singleton] at he
                    rcases he with (((rfl | rfl) | rfl) | rfl) | rfl <;> rfl
                  rcases o7 with _ | ⟨l, ltail⟩
                  · refine ⟨⟨_, _, by simp, hpre, hpost5⟩, ?_⟩
                    intro h
                    simp at h
                  · rcases o8 with _ | ⟨r, rtail⟩
                    · refine ⟨⟨_, _, by simp, hpre, hpost5⟩, ?_⟩
                      intro h
                      simp at h
                    · dsimp only
                      by_cases hne : trimSpace l ≠ trimSpace r
                      · rw [if_pos hne]
                        refine ⟨⟨_, _, by simp, hpre, hpost5⟩, ?_⟩
                        intro h
                        simp at h
                      · rw [if_neg hne]
                        rcases h9 : getGitOutput git ["stash", "drop"] with e9 | o9 <;>
                          simp only [h9]
                        · refine ⟨⟨_, [Event.git ["stash", "push", "--include-untracked"]] ++
                            [Event.git ["checkout", branchName]] ++ [Event.git ["pull"]] ++
                            [Event.git ["rev-parse", "HEAD"]] ++
                            [Event.git ["rev-parse", "origin/" ++ branchName]] ++
                            (o2.map extractFilename).map Event.restore ++
                            [Event.git ["stash", "drop"]], by simp, hpre, ?_⟩, ?_⟩
                          · intro e he
                            simp only [List.mem_append, List.mem_singleton,
                              List.mem_map] at he
                            rcases he with (((((rfl | rfl) | rfl) | rfl) | rfl) |
                              ⟨f, hf, rfl⟩) | rfl <;> rfl
                          · intro h
                            simp at h
                        · obtain ⟨hfst, hcontent⟩ := copyFilesToTempDir_ok fs
                            (o2.map extractFilename) snap (by rw [h3])
                          refine ⟨⟨_, [Event.git ["stash", "push", "--include-untracked"]] ++
                            [Event.git ["checkout", branchName]] ++ [Event.git ["pull"]] ++
                            [Event.git ["rev-parse", "HEAD"]] ++
                            [Event.git ["rev-parse", "origin/" ++ branchName]] ++
                            (o2.map extractFilename).map Event.restore ++
                            [Event.git ["stash", "drop"]], by simp, hpre, ?_⟩, ?_⟩
                          · intro e he
                            simp only [List.mem_append, List.mem_singleton,
                              List.mem_map] at he
                            rcases he with (((((rfl | rfl) | rfl) | rfl) | rfl) |
                              ⟨f, hf, rfl⟩) | rfl <;> rfl
                          · intro _
                            refine ⟨[Event.git ["fetch"]] ++
                              [Event.git (addDryRunCommand ["."] false false)] ++ ctr ++
                              [Event.git ["stash", "push", "--include-untracked"]] ++
                              [Event.git ["checkout", branchName]] ++ [Event.git ["pull"]] ++
                              [Event.git ["rev-parse", "HEAD"]] ++
                              [Event.git ["rev-parse", "origin/" ++ branchName]],
                              o2.map extractFilename, snap, by simp, rfl,
                              hfst, ?_, ?_⟩
                            · intro f hf
                              simp only [List.mem_append]
                              exact Or.inl (Or.inr (List.mem_map_of_mem _ hf))
                            · intro hmem
                              simp [addDryRunCommand] at hmem
                              exact hctrP hmem

/-- The VCS runner of a successful reconciliation run: `HEAD` and
`origin/main` resolve to the same commit. -/
def convergedGit : GitRunner := fun args =>
  if args = ["rev-parse", "HEAD"] then .ok "aaa"
  else if args = ["rev-parse", "origin/main"] then .ok "aaa"
  else if args = ["add", "--dry-run", "."] then .ok "add a.txt"
  else .ok ""

/-- Witness for C8: the success hypothesis discharged on a concrete
converged run. -/
theorem c8_snapshot_before_destructive_witness :
    (∃ pre post, (syncWithRemote convergedGit syncFs "main").trace = pre ++ post ∧
      (∀ e ∈ pre, isDestructiveGit e = false) ∧
      (∀ e ∈ post, isSnapshotCopy e = false)) ∧
    (∃ pre files snap,
      (syncWithRemote convergedGit syncFs "main").trace =
        pre ++ files.map Event.restore ++ [Event.git ["stash", "drop"]] ∧
      (syncWithRemote convergedGit syncFs "main").snapshot = some snap ∧
      snap.map Prod.fst = files ∧
      (∀ f ∈ files, Event.restore f ∈ (syncWithRemote convergedGit syncFs "main").trace) ∧
      Event.git ["stash", "pop"] ∉ (syncWithRemote convergedGit syncFs "main").trace) := by
  have h := c8_snapshot_before_destructive convergedGit syncFs "main"
  exact ⟨h.1, h.2 (by decide)⟩

end CommitCli
